/-
Verification of the power-curtailment contract scheduler
(`src/power_curtailment/power_curtailment.py` and
`src/power_curtailment/config.py`) against its natural-language
specification.

Modelling choices (shallow embedding):
* Timestamps and the slot frequency are minutes since an (arbitrary) local
  midnight, as natural numbers; a day is a fixed 1440 minutes
  (time-zone/DST effects are outside the model).  `pd.Timestamp.ceil(freq)`
  becomes rounding up to a multiple of the slot frequency,
  `pd.Timestamp.normalize()` becomes truncation to a multiple of 1440,
  `pd.Timedelta(minutes=1)` becomes `+ 1`.
* `pd.Timedelta` values used for backoff/sleep are rational numbers of
  seconds (`ℚ`); prices are `ℚ` (the code only compares them).
* The dict `_active_contracts : dict[Timestamp, bool]` is `keys` (the keys
  in insertion order) together with `resolvedSet`, the set of keys mapped
  to `True`.  Python set differences, whose iteration order is
  unspecified, are materialised in the slot-grid order.
* External effects are oracles: the outcome of the fetch made with attempt
  counter `n` in a cycle is `fetch n`; the outcome of the dispatch call
  for timestamp `ts` and microgrid `mid` is `dok ts mid`.  Log statements
  are dropped, except that the final error log of
  `_process_contracts_with_retries` reads the local variable
  `unprocessed_contracts`, which was never assigned when the `while` body
  never ran (`retries = 0`); that path is an `UnboundLocalError`, modelled
  as `RuntimeError.unboundLocal`.
-/
import Mathlib

namespace PowerCurtailment

/-- Minutes in a day (the model ignores DST). -/
def minutesPerDay : Nat := 1440

/-- `pd.Timestamp.ceil(freq)`: round `t` up to the next multiple of `f`. -/
def ceilTs (t f : Nat) : Nat := ((t + f - 1) / f) * f

/-- `pd.Timestamp.normalize()`: truncate `t` to midnight of its day. -/
def normalizeTs (t : Nat) : Nat := (t / minutesPerDay) * minutesPerDay

/-- `pd.date_range(start=now.ceil(f), end=(now + 2 days).normalize(),
freq=f, inclusive="left")` from `update_contracts`: the multiples-of-`f`
grid anchored at `now.ceil(f)`, strictly before the right endpoint. -/
def currentContractsList (f now : Nat) : List Nat :=
  let start := ceilTs now f
  let stop := normalizeTs (now + 2 * minutesPerDay)
  (List.range ((stop - start + f - 1) / f)).map (fun k => start + k * f)

/-- The slot grid of `update_contracts` as the set `current_set`. -/
def currentContracts (f now : Nat) : Finset Nat :=
  (currentContractsList f now).toFinset

/-- The state held in `self._active_contracts : dict[pd.Timestamp, bool]`:
`keys` is the key list in insertion order, `resolvedSet` the set of keys
mapped to `True`. -/
structure ActiveContracts where
  keys : List Nat
  resolvedSet : Finset Nat
deriving DecidableEq

/-- The key set of the dict (`existing_set` in `update_contracts`). -/
def ActiveContracts.tracked (st : ActiveContracts) : Finset Nat :=
  st.keys.toFinset

/-- `self._active_contracts[ts] = True` (dict assignment: inserts the key
when absent, which never happens on the call sites). -/
def ActiveContracts.markResolved (st : ActiveContracts) (ts : Nat) : ActiveContracts :=
  ⟨if ts ∈ st.keys then st.keys else st.keys ++ [ts], insert ts st.resolvedSet⟩

/-- Result of `update_contracts`: the new state plus the added/removed
sets (computed in the source only for logging). -/
structure RefreshResult where
  state : ActiveContracts
  added : Finset Nat
  removed : Finset Nat
deriving DecidableEq

/-- `PowerCurtailmentActor.update_contracts`, with `now` made explicit:
recompute the slot grid, delete the tracked keys outside it (keeping the
order of the remainder, as dict deletion does) and insert the grid slots
not yet tracked with value `False`. -/
def update_contracts (f now : Nat) (st : ActiveContracts) : RefreshResult :=
  let current := currentContracts f now
  let existing := st.tracked
  { state :=
      { keys := st.keys.filter (fun ts => ts ∈ current) ++
          (currentContractsList f now).filter (fun ts => ts ∉ existing)
        resolvedSet := st.resolvedSet ∩ existing ∩ current }
    added := current \ existing
    removed := existing \ current }

/-- `PowerCurtailmentActor._get_unprocessed_contracts`: the keys whose
value is `False`, in dict order. -/
def get_unprocessed_contracts (st : ActiveContracts) : List Nat :=
  st.keys.filter (fun ts => ts ∉ st.resolvedSet)

/-- `PowerCurtailmentConfig` (`config.py`).  `run_frequency` and
`initial_backoff` are `timedelta`s, modelled as rational seconds;
`da_price_frequency` is a frequency string such as `"15min"`, modelled as
the slot length in minutes; `price_limit` and `power_reduction_w` are
floats on which the code only does comparisons/storage, modelled as `ℚ`. -/
structure PowerCurtailmentConfig where
  run_frequency : ℚ
  da_price_frequency : Nat
  microgrid_ids : List Nat
  price_limit : ℚ
  retries : Nat
  initial_backoff : ℚ
  country_code : String
  power_reduction_w : ℚ
deriving DecidableEq

/-- The `ValueError` of `PowerCurtailmentConfig.__post_init__`. -/
inductive ConfigError where
  | invalidSchedule
deriving DecidableEq

/-- Construction of `PowerCurtailmentConfig` including its
`__post_init__` check: `retry_window = initial_backoff * (2**retries - 1)`
and a `ValueError` is raised iff `retry_window >= run_frequency`. -/
def mkPowerCurtailmentConfig (run_frequency : ℚ) (da_price_frequency : Nat)
    (microgrid_ids : List Nat) (price_limit : ℚ) (retries : Nat)
    (initial_backoff : ℚ) (country_code : String) (power_reduction_w : ℚ) :
    Except ConfigError PowerCurtailmentConfig :=
  let retry_window := initial_backoff * ((2 : ℚ) ^ retries - 1)
  if run_frequency ≤ retry_window then
    Except.error ConfigError.invalidSchedule
  else
    Except.ok
      ⟨run_frequency, da_price_frequency, microgrid_ids, price_limit, retries,
        initial_backoff, country_code, power_reduction_w⟩

/-- Outcome of the loop body of `_send_dispatch`: the final
`success_count` and the list of microgrid ids for which
`dispatch_client.create` was called, in call order.  `ok mid` is the
oracle saying whether the call for microgrid `mid` succeeds or raises
(the exception is caught and only logged). -/
def send_dispatch_loop (ok : Nat → Bool) : List Nat → Nat × List Nat
  | [] => (0, [])
  | mid :: rest =>
      let r := send_dispatch_loop ok rest
      (if ok mid then r.1 + 1 else r.1, mid :: r.2)

/-- Result of `_send_dispatch`: which microgrids were attempted, and the
aggregate return value. -/
structure DispatchResult where
  attempted : List Nat
  success : Bool
deriving DecidableEq

/-- `PowerCurtailmentActor._send_dispatch` for a fixed timestamp: call
`dispatch_client.create` for every configured microgrid, counting
successes; return `True` only if `success_count` equals the number of
microgrids. -/
def send_dispatch (microgrid_ids : List Nat) (ok : Nat → Bool) : DispatchResult :=
  let r := send_dispatch_loop ok microgrid_ids
  ⟨r.2, r.1 == microgrid_ids.length⟩

/-- Result of `_process_available_prices`: the new contract state and the
timestamps for which `_send_dispatch` was called, in call order. -/
structure ProcessResult where
  state : ActiveContracts
  dispatched : List Nat
deriving DecidableEq

/-- `PowerCurtailmentActor._process_available_prices`: for each contract
timestamp found in the price series, send a dispatch when the price is
strictly above `price_limit` (skipping the resolved mark if the dispatch
failed), and otherwise (price at or below the limit) mark resolved
immediately.  `da_prices` is the fetched series as a partial map, `dok ts
mid` the dispatch oracle. -/
def process_available_prices (cfg : PowerCurtailmentConfig)
    (dok : Nat → Nat → Bool) (da_prices : Nat → Option ℚ) :
    List Nat → ActiveContracts → ProcessResult
  | [], st => ⟨st, []⟩
  | ts :: rest, st =>
    match da_prices ts with
    | none => process_available_prices cfg dok da_prices rest st
    | some price =>
      if cfg.price_limit < price then
        if (send_dispatch cfg.microgrid_ids (dok ts)).success then
          let r := process_available_prices cfg dok da_prices rest (st.markResolved ts)
          ⟨r.state, ts :: r.dispatched⟩
        else
          let r := process_available_prices cfg dok da_prices rest st
          ⟨r.state, ts :: r.dispatched⟩
      else
        process_available_prices cfg dok da_prices rest (st.markResolved ts)

/-- Observable outcome of one `_fetch_da_prices` call: a price series
(`success`), `None` after a `NoMatchingDataError` (`noData`), or a
re-raised exception after the ENTSO-e client was replaced (`failure`). -/
inductive FetchOutcome where
  | success (prices : Nat → Option ℚ)
  | noData
  | failure

/-- The unhandled exception `_process_contracts_with_retries` can raise:
the `UnboundLocalError` from reading `unprocessed_contracts` in the final
error log when the `while` body never ran. -/
inductive RuntimeError where
  | unboundLocal
deriving DecidableEq

/-- Observable outcome of one normally completed scheduling cycle:
the final contract state, the `(start, end)` arguments of every price
fetch, the backoff sleeps in seconds, and the timestamps dispatched. -/
structure CycleResult where
  state : ActiveContracts
  fetchCalls : List (Nat × Nat)
  sleeps : List ℚ
  dispatched : List Nat
deriving DecidableEq

/-- The `while attempt < retries` loop of
`_process_contracts_with_retries`; `fuel = retries - attempt` is the
number of loop iterations the condition still allows.  An iteration
recomputes the unprocessed contracts and returns if there are none;
otherwise it fetches `[min, max + 1 minute)` and either processes the
prices and returns (`success`), returns leaving everything unresolved
(`noData`), or counts a failed attempt, sleeping `backoff` and doubling
it only when the incremented counter is still below `retries`; after the
last allowed attempt the loop exits and the function merely logs before
returning.  When the loop body never runs at all, that error log raises
`UnboundLocalError` on `unprocessed_contracts`. -/
def retry_loop (cfg : PowerCurtailmentConfig) (fetch : Nat → FetchOutcome)
    (dok : Nat → Nat → Bool) :
    Nat → Nat → ℚ → ActiveContracts → List (Nat × Nat) → List ℚ → List Nat →
    Except RuntimeError CycleResult
  | 0, _, _, _, _, _, _ => Except.error RuntimeError.unboundLocal
  | fuel + 1, attempt, backoff, st, calls, sleeps, disp =>
      match get_unprocessed_contracts st with
      | [] => Except.ok ⟨st, calls, sleeps, disp⟩
      | ts :: rest =>
        let start_time := rest.foldl Nat.min ts
        let end_time := rest.foldl Nat.max ts + 1
        let calls' := calls ++ [(start_time, end_time)]
        match fetch attempt with
        | FetchOutcome.success prices =>
            let r := process_available_prices cfg dok prices (ts :: rest) st
            Except.ok ⟨r.state, calls', sleeps, disp ++ r.dispatched⟩
        | FetchOutcome.noData => Except.ok ⟨st, calls', sleeps, disp⟩
        | FetchOutcome.failure =>
            if fuel = 0 then Except.ok ⟨st, calls', sleeps, disp⟩
            else
              retry_loop cfg fetch dok fuel (attempt + 1) (backoff * 2) st calls'
                (sleeps ++ [backoff]) disp

/-- `PowerCurtailmentActor._process_contracts_with_retries`: run the
retry loop with `attempt = 0` and `backoff = initial_backoff`. -/
def process_contracts_with_retries (cfg : PowerCurtailmentConfig)
    (fetch : Nat → FetchOutcome) (dok : Nat → Nat → Bool)
    (st : ActiveContracts) : Except RuntimeError CycleResult :=
  retry_loop cfg fetch dok cfg.retries 0 cfg.initial_backoff st [] [] []

/-- Python `min(list)` on a non-empty list (`min(unprocessed_contracts)`). -/
def listMin : List Nat → Nat
  | [] => 0
  | x :: xs => xs.foldl Nat.min x

/-- Python `max(list)` on a non-empty list (`max(unprocessed_contracts)`). -/
def listMax : List Nat → Nat
  | [] => 0
  | x :: xs => xs.foldl Nat.max x

-- Arithmetic characterisation of the slot grid.

theorem lt_ceilDiv_iff (f k m : Nat) (hf : 0 < f) :
    k < (m + f - 1) / f ↔ k * f < m := by
  rw [Nat.lt_iff_add_one_le, Nat.le_div_iff_mul_le hf, Nat.succ_mul]
  omega

theorem dvd_ceilTs (t f : Nat) : f ∣ ceilTs t f :=
  dvd_mul_left f _

theorem mem_currentContractsList (f now s : Nat) (hf : 0 < f) :
    s ∈ currentContractsList f now ↔
      f ∣ s ∧ ceilTs now f ≤ s ∧ s < normalizeTs (now + 2 * minutesPerDay) := by
  unfold currentContractsList
  simp only [List.mem_map, List.mem_range]
  constructor
  · rintro ⟨k, hk, rfl⟩
    rw [lt_ceilDiv_iff f k _ hf] at hk
    exact ⟨(dvd_ceilTs now f).add (dvd_mul_left f k), Nat.le_add_right _ _, by omega⟩
  · rintro ⟨hs, has, hlt⟩
    have hd : f ∣ s - ceilTs now f := Nat.dvd_sub' hs (dvd_ceilTs now f)
    refine ⟨(s - ceilTs now f) / f, ?_, ?_⟩
    · rw [lt_ceilDiv_iff f _ _ hf, Nat.div_mul_cancel hd]
      omega
    · rw [Nat.div_mul_cancel hd]
      omega

theorem mem_currentContracts (f now s : Nat) (hf : 0 < f) :
    s ∈ currentContracts f now ↔
      f ∣ s ∧ ceilTs now f ≤ s ∧ s < normalizeTs (now + 2 * minutesPerDay) := by
  rw [currentContracts, List.mem_toFinset]
  exact mem_currentContractsList f now s hf

-- The key set after a window refresh is exactly the slot grid.

theorem mem_update_tracked (f now s : Nat) (st : ActiveContracts) :
    s ∈ (update_contracts f now st).state.tracked ↔ s ∈ currentContracts f now := by
  simp only [update_contracts, ActiveContracts.tracked, List.toFinset_append,
    Finset.mem_union, List.mem_toFinset, List.mem_filter, decide_eq_true_eq,
    currentContracts, decide_not, Bool.not_eq_true', decide_eq_false_iff_not]
  tauto

-- Python `min`/`max` over a list, via `List.foldl`.

theorem foldl_min_le_init : ∀ (l : List Nat) (a : Nat), l.foldl Nat.min a ≤ a
  | [], _ => le_refl _
  | x :: xs, a => le_trans (foldl_min_le_init xs (Nat.min a x)) (Nat.min_le_left a x)

theorem foldl_min_le_mem : ∀ (l : List Nat) (a x : Nat), x ∈ l → l.foldl Nat.min a ≤ x := by
  intro l
  induction l with
  | nil => intro a x hx; cases hx
  | cons y ys ih =>
      intro a x hx
      rcases List.mem_cons.mp hx with rfl | hx
      · exact le_trans (foldl_min_le_init ys (Nat.min a x)) (Nat.min_le_right a x)
      · exact ih (Nat.min a y) x hx

theorem foldl_min_mem : ∀ (l : List Nat) (a : Nat),
    l.foldl Nat.min a = a ∨ l.foldl Nat.min a ∈ l := by
  intro l
  induction l with
  | nil => intro a; exact Or.inl rfl
  | cons y ys ih =>
      intro a
      rcases ih (Nat.min a y) with h | h
      · rcases Nat.le_total a y with hle | hle
        · exact Or.inl (by rw [List.foldl_cons, h, (by unfold Nat.min; exact inf_eq_left.mpr hle : a.min y = a)])
        · exact Or.inr (by
            rw [List.foldl_cons, h, (by unfold Nat.min; exact inf_eq_right.mpr hle : a.min y = y)]
            exact List.mem_cons_self y ys)
      · exact Or.inr (List.mem_cons_of_mem y h)

theorem init_le_foldl_max : ∀ (l : List Nat) (a : Nat), a ≤ l.foldl Nat.max a
  | [], _ => le_refl _
  | x :: xs, a => le_trans (Nat.le_max_left a x) (init_le_foldl_max xs (Nat.max a x))

theorem mem_le_foldl_max : ∀ (l : List Nat) (a x : Nat), x ∈ l → x ≤ l.foldl Nat.max a := by
  intro l
  induction l with
  | nil => intro a x hx; cases hx
  | cons y ys ih =>
      intro a x hx
      rcases List.mem_cons.mp hx with rfl | hx
      · exact le_trans (Nat.le_max_right a x) (init_le_foldl_max ys (Nat.max a x))
      · exact ih (Nat.max a y) x hx

theorem foldl_max_mem : ∀ (l : List Nat) (a : Nat),
    l.foldl Nat.max a = a ∨ l.foldl Nat.max a ∈ l := by
  intro l
  induction l with
  | nil => intro a; exact Or.inl rfl
  | cons y ys ih =>
      intro a
      rcases ih (Nat.max a y) with h | h
      · rcases Nat.le_total a y with hle | hle
        · exact Or.inr (by
            rw [List.foldl_cons, h, (by unfold Nat.max; exact sup_eq_right.mpr hle : a.max y = y)]
            exact List.mem_cons_self y ys)
        · exact Or.inl (by rw [List.foldl_cons, h, (by unfold Nat.max; exact sup_eq_left.mpr hle : a.max y = a)])
      · exact Or.inr (List.mem_cons_of_mem y h)

theorem listMin_mem (l : List Nat) (h : l ≠ []) : listMin l ∈ l := by
  match l with
  | [] => exact absurd rfl h
  | x :: xs =>
      rcases foldl_min_mem xs x with hm | hm
      · rw [listMin, hm]; exact List.mem_cons_self x xs
      · exact List.mem_cons_of_mem x (by rw [listMin]; exact hm)

theorem listMin_le (l : List Nat) (x : Nat) (hx : x ∈ l) : listMin l ≤ x := by
  match l with
  | x' :: xs =>
      rcases List.mem_cons.mp hx with rfl | hx
      · exact foldl_min_le_init xs x
      · exact foldl_min_le_mem xs x' x hx

theorem listMax_mem (l : List Nat) (h : l ≠ []) : listMax l ∈ l := by
  match l with
  | [] => exact absurd rfl h
  | x :: xs =>
      rcases foldl_max_mem xs x with hm | hm
      · rw [listMax, hm]; exact List.mem_cons_self x xs
      · exact List.mem_cons_of_mem x (by rw [listMax]; exact hm)

theorem le_listMax (l : List Nat) (x : Nat) (hx : x ∈ l) : x ≤ listMax l := by
  match l with
  | x' :: xs =>
      rcases List.mem_cons.mp hx with rfl | hx
      · exact init_le_foldl_max xs x
      · exact mem_le_foldl_max xs x' x hx

-- `_send_dispatch` facts.

theorem send_dispatch_loop_calls (ok : Nat → Bool) :
    ∀ l : List Nat, (send_dispatch_loop ok l).2 = l
  | [] => rfl
  | mid :: rest => by
      simp only [send_dispatch_loop]
      exact congrArg (mid :: ·) (send_dispatch_loop_calls ok rest)

theorem send_dispatch_loop_count (ok : Nat → Bool) :
    ∀ l : List Nat, (send_dispatch_loop ok l).1 ≤ l.length ∧
      ((send_dispatch_loop ok l).1 = l.length ↔ ∀ m ∈ l, ok m = true)
  | [] => by simp [send_dispatch_loop]
  | mid :: rest => by
      obtain ⟨hle, hiff⟩ := send_dispatch_loop_count ok rest
      simp only [send_dispatch_loop, List.length_cons, List.mem_cons]
      by_cases h : ok mid = true
      · rw [if_pos h]
        refine ⟨by omega, ?_, ?_⟩
        · intro he m hm
          rcases hm with rfl | hm
          · exact h
          · exact hiff.mp (by omega) m hm
        · intro hall
          have he : (send_dispatch_loop ok rest).1 = rest.length :=
            hiff.mpr fun m hm => hall m (Or.inr hm)
          omega
      · rw [if_neg h]
        refine ⟨by omega, ?_, ?_⟩
        · intro he
          exact absurd he (by omega)
        · intro hall
          exact absurd (hall mid (Or.inl rfl)) h

theorem send_dispatch_attempted (ids : List Nat) (ok : Nat → Bool) :
    (send_dispatch ids ok).attempted = ids :=
  send_dispatch_loop_calls ok ids

theorem send_dispatch_success_iff (ids : List Nat) (ok : Nat → Bool) :
    (send_dispatch ids ok).success = true ↔ ∀ m ∈ ids, ok m = true := by
  rw [send_dispatch]
  simp only [beq_iff_eq]
  exact (send_dispatch_loop_count ok ids).2

-- `_process_available_prices` facts.

theorem mem_get_unprocessed (st : ActiveContracts) (ts : Nat) :
    ts ∈ get_unprocessed_contracts st ↔ ts ∈ st.keys ∧ ts ∉ st.resolvedSet := by
  simp [get_unprocessed_contracts]

theorem pap_dispatched_indep (cfg : PowerCurtailmentConfig) (dok : Nat → Nat → Bool)
    (p : Nat → Option ℚ) :
    ∀ (l : List Nat) (st st' : ActiveContracts),
      (process_available_prices cfg dok p l st).dispatched =
        (process_available_prices cfg dok p l st').dispatched := by
  intro l
  induction l with
  | nil => intro st st'; rfl
  | cons c rest ih =>
      intro st st'
      cases hc : p c with
      | none => simp only [process_available_prices, hc]; exact ih st st'
      | some price =>
          simp only [process_available_prices, hc]
          by_cases hp : cfg.price_limit < price
          · rw [if_pos hp, if_pos hp]
            by_cases hd : (send_dispatch cfg.microgrid_ids (dok c)).success = true
            · rw [if_pos hd, if_pos hd]
              exact congrArg (c :: ·) (ih _ _)
            · rw [if_neg hd, if_neg hd]
              exact congrArg (c :: ·) (ih _ _)
          · rw [if_neg hp, if_neg hp]
            exact ih _ _

theorem mem_dispatched_iff (cfg : PowerCurtailmentConfig) (dok : Nat → Nat → Bool)
    (p : Nat → Option ℚ) :
    ∀ (l : List Nat) (st : ActiveContracts) (ts : Nat),
      ts ∈ (process_available_prices cfg dok p l st).dispatched ↔
        ts ∈ l ∧ ∃ q, p ts = some q ∧ cfg.price_limit < q := by
  intro l
  induction l with
  | nil => intro st ts; simp [process_available_prices]
  | cons c rest ih =>
      intro st ts
      cases hc : p c with
      | none =>
          simp only [process_available_prices, hc]
          rw [ih st ts, List.mem_cons]
          constructor
          · rintro ⟨h1, h2⟩
            exact ⟨Or.inr h1, h2⟩
          · rintro ⟨h1, q, hq, hlt⟩
            rcases h1 with rfl | h1
            · rw [hc] at hq; cases hq
            · exact ⟨h1, q, hq, hlt⟩
      | some price =>
          simp only [process_available_prices, hc]
          by_cases hp : cfg.price_limit < price
          · have hcons :
                ∀ st'' : ActiveContracts,
                  ts ∈ c :: (process_available_prices cfg dok p rest st'').dispatched ↔
                    ts ∈ c :: rest ∧ ∃ q, p ts = some q ∧ cfg.price_limit < q := by
              intro st''
              rw [List.mem_cons, List.mem_cons, ih st'' ts]
              constructor
              · rintro (rfl | ⟨h1, h2⟩)
                · exact ⟨Or.inl rfl, price, hc, hp⟩
                · exact ⟨Or.inr h1, h2⟩
              · rintro ⟨rfl | h1, q, hq, hlt⟩
                · exact Or.inl rfl
                · exact Or.inr ⟨h1, q, hq, hlt⟩
            rw [if_pos hp]
            by_cases hd : (send_dispatch cfg.microgrid_ids (dok c)).success = true
            · rw [if_pos hd]
              exact hcons _
            · rw [if_neg hd]
              exact hcons _
          · rw [if_neg hp, ih _ ts, List.mem_cons]
            constructor
            · rintro ⟨h1, h2⟩
              exact ⟨Or.inr h1, h2⟩
            · rintro ⟨h1, q, hq, hlt⟩
              rcases h1 with rfl | h1
              · rw [hc] at hq
                cases hq
                exact absurd hlt hp
              · exact ⟨h1, q, hq, hlt⟩

theorem pap_resolved_mono (cfg : PowerCurtailmentConfig) (dok : Nat → Nat → Bool)
    (p : Nat → Option ℚ) :
    ∀ (l : List Nat) (st : ActiveContracts),
      st.resolvedSet ⊆ (process_available_prices cfg dok p l st).state.resolvedSet := by
  intro l
  induction l with
  | nil => intro st; exact Finset.Subset.refl _
  | cons c rest ih =>
      intro st
      have hmark : st.resolvedSet ⊆ (st.markResolved c).resolvedSet := by
        intro x hx
        exact Finset.mem_insert_of_mem hx
      cases hc : p c with
      | none => simp only [process_available_prices, hc]; exact ih st
      | some price =>
          simp only [process_available_prices, hc]
          by_cases hp : cfg.price_limit < price
          · rw [if_pos hp]
            by_cases hd : (send_dispatch cfg.microgrid_ids (dok c)).success = true
            · rw [if_pos hd]
              exact hmark.trans (ih _)
            · rw [if_neg hd]
              exact ih st
          · rw [if_neg hp]
            exact hmark.trans (ih _)

theorem pap_resolved_of (cfg : PowerCurtailmentConfig) (dok : Nat → Nat → Bool)
    (p : Nat → Option ℚ) :
    ∀ (l : List Nat) (st : ActiveContracts) (ts : Nat) (q : ℚ),
      ts ∈ l → p ts = some q →
      (¬ cfg.price_limit < q ∨ (send_dispatch cfg.microgrid_ids (dok ts)).success = true) →
      ts ∈ (process_available_prices cfg dok p l st).state.resolvedSet := by
  intro l
  induction l with
  | nil => intro st ts q h; cases h
  | cons c rest ih =>
      intro st ts q hts hq hcase
      rcases List.mem_cons.mp hts with rfl | hts'
      · simp only [process_available_prices, hq]
        rcases hcase with hle | hsucc
        · rw [if_neg hle]
          exact pap_resolved_mono cfg dok p rest _ (Finset.mem_insert_self ts _)
        · by_cases hp : cfg.price_limit < q
          · rw [if_pos hp, if_pos hsucc]
            exact pap_resolved_mono cfg dok p rest _ (Finset.mem_insert_self ts _)
          · rw [if_neg hp]
            exact pap_resolved_mono cfg dok p rest _ (Finset.mem_insert_self ts _)
      · cases hc : p c with
        | none =>
            simp only [process_available_prices, hc]
            exact ih st ts q hts' hq hcase
        | some price =>
            simp only [process_available_prices, hc]
            by_cases hp : cfg.price_limit < price
            · rw [if_pos hp]
              by_cases hd : (send_dispatch cfg.microgrid_ids (dok c)).success = true
              · rw [if_pos hd]
                exact ih _ ts q hts' hq hcase
              · rw [if_neg hd]
                exact ih _ ts q hts' hq hcase
            · rw [if_neg hp]
              exact ih _ ts q hts' hq hcase

theorem pap_not_resolved_of_fail (cfg : PowerCurtailmentConfig) (dok : Nat → Nat → Bool)
    (p : Nat → Option ℚ) :
    ∀ (l : List Nat) (st : ActiveContracts) (ts : Nat) (q : ℚ),
      ts ∉ st.resolvedSet → p ts = some q → cfg.price_limit < q →
      (send_dispatch cfg.microgrid_ids (dok ts)).success = false →
      ts ∉ (process_available_prices cfg dok p l st).state.resolvedSet := by
  intro l
  induction l with
  | nil => intro st ts q hst _ _ _; exact hst
  | cons c rest ih =>
      intro st ts q hst hq hlt hfail
      have hne : c ≠ ts → ts ∉ (st.markResolved c).resolvedSet := by
        intro h hmem
        rcases Finset.mem_insert.mp hmem with rfl | hmem
        · exact h rfl
        · exact hst hmem
      cases hc : p c with
      | none =>
          simp only [process_available_prices, hc]
          exact ih st ts q hst hq hlt hfail
      | some price =>
          simp only [process_available_prices, hc]
          by_cases hp : cfg.price_limit < price
          · rw [if_pos hp]
            by_cases hd : (send_dispatch cfg.microgrid_ids (dok c)).success = true
            · rw [if_pos hd]
              have hcts : c ≠ ts := by
                rintro rfl
                rw [hfail] at hd
                cases hd
              exact ih _ ts q (hne hcts) hq hlt hfail
            · rw [if_neg hd]
              exact ih _ ts q hst hq hlt hfail
          · rw [if_neg hp]
            have hcts : c ≠ ts := by
              rintro rfl
              rw [hc] at hq
              cases hq
              exact hp hlt
            exact ih _ ts q (hne hcts) hq hlt hfail

-- Retry-loop facts.

theorem retry_loop_dispatched (cfg : PowerCurtailmentConfig)
    (fetch : Nat → FetchOutcome) (dok : Nat → Nat → Bool) :
    ∀ (fuel attempt : Nat) (backoff : ℚ) (st : ActiveContracts)
      (calls : List (Nat × Nat)) (sleeps : List ℚ) (disp : List Nat)
      (r : CycleResult),
      retry_loop cfg fetch dok fuel attempt backoff st calls sleeps disp =
        Except.ok r →
      ∀ x ∈ r.dispatched, x ∈ disp ∨ x ∈ get_unprocessed_contracts st := by
  intro fuel
  induction fuel with
  | zero => intro _ _ _ _ _ _ _ h; cases h
  | succ fuel ih =>
      intro attempt backoff st calls sleeps disp r h x hx
      cases hu : get_unprocessed_contracts st with
      | nil =>
          simp only [retry_loop, hu] at h
          cases h
          exact Or.inl hx
      | cons ts rest =>
          simp only [retry_loop, hu] at h
          cases hf : fetch attempt with
          | success prices =>
              simp only [hf] at h
              cases h
              rcases List.mem_append.mp hx with hx | hx
              · exact Or.inl hx
              · exact Or.inr
                  ((mem_dispatched_iff cfg dok prices (ts :: rest) st x).mp hx).1
          | noData =>
              simp only [hf] at h
              cases h
              exact Or.inl hx
          | failure =>
              simp only [hf] at h
              by_cases hz : fuel = 0
              · rw [if_pos hz] at h
                cases h
                exact Or.inl hx
              · rw [if_neg hz] at h
                rcases ih _ _ _ _ _ _ _ h x hx with hmem | hmem
                · exact Or.inl hmem
                · rw [hu] at hmem
                  exact Or.inr hmem

theorem retry_loop_calls (cfg : PowerCurtailmentConfig)
    (fetch : Nat → FetchOutcome) (dok : Nat → Nat → Bool) :
    ∀ (fuel attempt : Nat) (backoff : ℚ) (st : ActiveContracts)
      (calls : List (Nat × Nat)) (sleeps : List ℚ) (disp : List Nat)
      (r : CycleResult),
      retry_loop cfg fetch dok fuel attempt backoff st calls sleeps disp =
        Except.ok r →
      ∀ c ∈ r.fetchCalls, c ∈ calls ∨
        (get_unprocessed_contracts st ≠ [] ∧
          c = (listMin (get_unprocessed_contracts st),
               listMax (get_unprocessed_contracts st) + 1)) := by
  intro fuel
  induction fuel with
  | zero => intro _ _ _ _ _ _ _ h; cases h
  | succ fuel ih =>
      intro attempt backoff st calls sleeps disp r h c hc
      cases hu : get_unprocessed_contracts st with
      | nil =>
          simp only [retry_loop, hu] at h
          cases h
          exact Or.inl hc
      | cons ts rest =>
          simp only [retry_loop, hu] at h
          have hnew :
              c ∈ calls ++ [(rest.foldl Nat.min ts, rest.foldl Nat.max ts + 1)] →
                c ∈ calls ∨
                  ((ts :: rest : List Nat) ≠ [] ∧
                    c = (listMin (ts :: rest), listMax (ts :: rest) + 1)) := by
            intro hmem
            rcases List.mem_append.mp hmem with hmem | hmem
            · exact Or.inl hmem
            · exact Or.inr ⟨List.cons_ne_nil ts rest,
                by simpa [listMin, listMax] using List.mem_singleton.mp hmem⟩
          cases hf : fetch attempt with
          | success prices =>
              simp only [hf] at h
              cases h
              exact hnew hc
          | noData =>
              simp only [hf] at h
              cases h
              exact hnew hc
          | failure =>
              simp only [hf] at h
              by_cases hz : fuel = 0
              · rw [if_pos hz] at h
                cases h
                exact hnew hc
              · rw [if_neg hz] at h
                rcases ih _ _ _ _ _ _ _ h c hc with hmem | hmem
                · exact hnew hmem
                · rw [hu] at hmem
                  exact Or.inr hmem

set_option maxRecDepth 10000

/-- C1 (confirmed): in `_process_available_prices`, for a contract with
an available price `p` and configured limit `L`, a dispatch is attempted
iff `p > L`; when `p ≤ L` (including equality) no dispatch is attempted
and the contract is marked resolved immediately.  Moreover in the
concrete scenario (prices 12:00 → 150.0, 12:15 → 50.0, `L = 100.0`,
dispatch succeeding) exactly one dispatch is attempted, for 12:00 only,
and both contracts end resolved. -/
theorem C1_threshold_decision (cfg : PowerCurtailmentConfig)
    (dok : Nat → Nat → Bool) (prices : Nat → Option ℚ) (l : List Nat)
    (st : ActiveContracts) (ts : Nat) (p : ℚ)
    (hts : ts ∈ l) (hp : prices ts = some p) :
    (ts ∈ (process_available_prices cfg dok prices l st).dispatched ↔
      cfg.price_limit < p) ∧
    (p ≤ cfg.price_limit →
      ts ∈ (process_available_prices cfg dok prices l st).state.resolvedSet) ∧
    process_available_prices ⟨3600, 15, [1], 100, 3, 60, "DE_LU", 0⟩
        (fun _ _ => true)
        (fun t => if t = 720 then some 150 else if t = 735 then some 50 else none)
        [720, 735] ⟨[720, 735], ∅⟩ =
      ⟨⟨[720, 735], {735, 720}⟩, [720]⟩ := by
  refine ⟨?_, ?_, by decide⟩
  · rw [mem_dispatched_iff]
    constructor
    · rintro ⟨_, q, hq, hlt⟩
      rw [hp] at hq
      cases hq
      exact hlt
    · intro hlt
      exact ⟨hts, p, hp, hlt⟩
  · intro hle
    exact pap_resolved_of cfg dok prices l st ts p hts hp (Or.inl (not_lt.mpr hle))

/-- Witness for C1 at the scenario input: the 12:00 contract (price 150,
limit 100) is dispatched. -/
theorem C1_threshold_decision_witness :
    720 ∈ (process_available_prices ⟨3600, 15, [1], 100, 3, 60, "DE_LU", 0⟩
        (fun _ _ => true)
        (fun t => if t = 720 then some 150 else if t = 735 then some 50 else none)
        [720, 735] ⟨[720, 735], ∅⟩).dispatched :=
  (C1_threshold_decision ⟨3600, 15, [1], 100, 3, 60, "DE_LU", 0⟩
      (fun _ _ => true)
      (fun t => if t = 720 then some 150 else if t = 735 then some 50 else none)
      [720, 735] ⟨[720, 735], ∅⟩ 720 150 (by decide) rfl).1.mpr (by decide)

/-- C2 as stated is false on the code: the window's right end is
`(now + 2 days).normalize()` (midnight of the day two days ahead), not
`now + 2 days`.  At `now = 720` (12:00 on day 0, slot frequency 15 min)
the aligned slot `2880` (midnight of day 2) lies in
`[ceil(now, freq), now + 2 days)` yet is not tracked after a refresh. -/
theorem C2_counterexample :
    (15 ∣ 2880 ∧ ceilTs 720 15 ≤ 2880 ∧ 2880 < 720 + 2 * minutesPerDay) ∧
    2880 ∉ (update_contracts 15 720 ⟨[], ∅⟩).state.tracked := by decide

/-- C2 amended (proved): after a refresh the tracked slot set equals
exactly the multiples of the slot frequency in the right-exclusive
window from `ceil(now, freq)` up to midnight of the day two days ahead,
`normalize(now + 2 days)`. -/
theorem C2_window_correctness (f now s : Nat) (st : ActiveContracts) (hf : 0 < f) :
    s ∈ (update_contracts f now st).state.tracked ↔
      f ∣ s ∧ ceilTs now f ≤ s ∧ s < normalizeTs (now + 2 * minutesPerDay) := by
  rw [mem_update_tracked]
  exact mem_currentContracts f now s hf

/-- Witness for C2 (amended) at a concrete input. -/
theorem C2_window_correctness_witness :
    0 < 15 ∧
      (735 ∈ (update_contracts 15 720 ⟨[], ∅⟩).state.tracked ↔
        15 ∣ 735 ∧ ceilTs 720 15 ≤ 735 ∧
          735 < normalizeTs (720 + 2 * minutesPerDay)) :=
  ⟨by decide, C2_window_correctness 15 720 735 ⟨[], ∅⟩ (by decide)⟩

/-- C5 (confirmed): constructing the configuration fails with the
`ValueError` iff `initial_backoff * (2^retries - 1) ≥ run_frequency`, and
succeeds (returning the configuration unchanged) iff
`initial_backoff * (2^retries - 1) < run_frequency`. -/
theorem C5_config_validation (rf : ℚ) (f : Nat) (ids : List Nat) (L : ℚ)
    (n : Nat) (b : ℚ) (cc : String) (pw : ℚ) :
    (mkPowerCurtailmentConfig rf f ids L n b cc pw =
        Except.error ConfigError.invalidSchedule ↔
      rf ≤ b * ((2 : ℚ) ^ n - 1)) ∧
    (mkPowerCurtailmentConfig rf f ids L n b cc pw =
        Except.ok ⟨rf, f, ids, L, n, b, cc, pw⟩ ↔
      b * ((2 : ℚ) ^ n - 1) < rf) := by
  rw [mkPowerCurtailmentConfig]
  by_cases h : rf ≤ b * ((2 : ℚ) ^ n - 1)
  · rw [if_pos h]
    refine ⟨⟨fun _ => h, fun _ => rfl⟩, ?_, ?_⟩
    · intro he
      exact Except.noConfusion he
    · intro hlt
      exact absurd h (not_le.mpr hlt)
  · rw [if_neg h]
    refine ⟨⟨?_, ?_⟩, fun _ => not_le.mp h, fun _ => rfl⟩
    · intro he
      exact Except.noConfusion he
    · intro hge
      exact absurd hge h

/-- C10 is a code bug: `retries = 0` is accepted by the startup check
(its retry window is `0 < run_frequency`), yet a scheduling cycle then
raises an unhandled `UnboundLocalError` instead of completing with the
failure merely logged — with `retries = 0` the `while` body never runs
and the final error log reads the never-assigned local
`unprocessed_contracts`. -/
theorem C10_retries_zero_raises :
    mkPowerCurtailmentConfig 3600 15 [1] 100 0 1 "DE_LU" 0 =
      Except.ok ⟨3600, 15, [1], 100, 0, 1, "DE_LU", 0⟩ ∧
    process_contracts_with_retries ⟨3600, 15, [1], 100, 0, 1, "DE_LU", 0⟩
        (fun _ => FetchOutcome.failure) (fun _ _ => true) ⟨[720], ∅⟩ =
      Except.error RuntimeError.unboundLocal := by
  constructor
  · rw [mkPowerCurtailmentConfig, if_neg (by norm_num)]
  · rfl

/-- C3 as stated is false on the code: the fetch window end is
`max(unprocessed) + pd.Timedelta(minutes=1)`, not `max + 1 slot`.  With a
single unresolved contract at 720 and slot length 15 minutes, the one
fetch of the cycle is called with `(start, end) = (720, 721)`, and
`721 ≠ 720 + 15`. -/
theorem C3_counterexample :
    process_contracts_with_retries ⟨3600, 15, [1], 100, 1, 60, "DE_LU", 0⟩
        (fun _ => FetchOutcome.noData) (fun _ _ => true) ⟨[720], ∅⟩ =
      Except.ok ⟨⟨[720], ∅⟩, [(720, 721)], [], []⟩ ∧
    (721 : Nat) ≠ 720 + 15 := ⟨rfl, by decide⟩

/-- C3 amended (proved): every price fetch of a scheduling cycle is
called with `start` equal to the minimum of the unresolved contracts'
slot start times and `end` equal to their maximum plus one minute (not
plus one slot length). -/
theorem C3_fetch_window (cfg : PowerCurtailmentConfig)
    (fetch : Nat → FetchOutcome) (dok : Nat → Nat → Bool)
    (st : ActiveContracts) (r : CycleResult)
    (h : process_contracts_with_retries cfg fetch dok st = Except.ok r)
    (c : Nat × Nat) (hc : c ∈ r.fetchCalls) :
    c.1 ∈ get_unprocessed_contracts st ∧
    (∀ x ∈ get_unprocessed_contracts st, c.1 ≤ x) ∧
    c.2 = listMax (get_unprocessed_contracts st) + 1 ∧
    listMax (get_unprocessed_contracts st) ∈ get_unprocessed_contracts st ∧
    (∀ x ∈ get_unprocessed_contracts st,
      x ≤ listMax (get_unprocessed_contracts st)) := by
  rw [process_contracts_with_retries] at h
  rcases retry_loop_calls cfg fetch dok cfg.retries 0 cfg.initial_backoff st
      [] [] [] r h c hc with hmem | ⟨hne, heq⟩
  · cases hmem
  · rw [heq]
    exact ⟨listMin_mem _ hne, fun x hx => listMin_le _ x hx, rfl,
      listMax_mem _ hne, fun x hx => le_listMax _ x hx⟩

/-- Witness for C3 (amended) at a concrete one-contract cycle. -/
theorem C3_fetch_window_witness :
    (720, 721).1 ∈ get_unprocessed_contracts ⟨[720], ∅⟩ ∧
    (∀ x ∈ get_unprocessed_contracts (⟨[720], ∅⟩ : ActiveContracts),
      (720, 721).1 ≤ x) ∧
    (720, 721).2 = listMax (get_unprocessed_contracts ⟨[720], ∅⟩) + 1 ∧
    listMax (get_unprocessed_contracts ⟨[720], ∅⟩) ∈
      get_unprocessed_contracts (⟨[720], ∅⟩ : ActiveContracts) ∧
    (∀ x ∈ get_unprocessed_contracts (⟨[720], ∅⟩ : ActiveContracts),
      x ≤ listMax (get_unprocessed_contracts ⟨[720], ∅⟩)) :=
  C3_fetch_window ⟨3600, 15, [1], 100, 1, 60, "DE_LU", 0⟩
    (fun _ => FetchOutcome.noData) (fun _ _ => true) ⟨[720], ∅⟩
    ⟨⟨[720], ∅⟩, [(720, 721)], [], []⟩ rfl (720, 721) (by decide)

/-- Under sustained fetch failure, the retry loop with `fuel + 1`
attempts left fetches `fuel + 1` times over the same window, sleeps
`backoff * 2^i` after each non-final failure, and returns normally with
the contract state untouched. -/
theorem retry_loop_all_fail (cfg : PowerCurtailmentConfig)
    (dok : Nat → Nat → Bool) (ts : Nat) (rest : List Nat) :
    ∀ (fuel attempt : Nat) (backoff : ℚ) (st : ActiveContracts)
      (calls : List (Nat × Nat)) (sleeps : List ℚ) (disp : List Nat),
      get_unprocessed_contracts st = ts :: rest →
      retry_loop cfg (fun _ => FetchOutcome.failure) dok (fuel + 1) attempt
          backoff st calls sleeps disp =
        Except.ok ⟨st,
          calls ++ List.replicate (fuel + 1)
            (rest.foldl Nat.min ts, rest.foldl Nat.max ts + 1),
          sleeps ++ (List.range fuel).map (fun i => backoff * 2 ^ i), disp⟩ := by
  intro fuel
  induction fuel with
  | zero =>
      intro attempt backoff st calls sleeps disp hu
      rw [retry_loop.eq_def]
      simp only [hu]
      simp
  | succ fuel ih =>
      intro attempt backoff st calls sleeps disp hu
      rw [retry_loop.eq_def]
      simp only [hu]
      rw [if_neg (Nat.succ_ne_zero fuel)]
      rw [ih (attempt + 1) (backoff * 2) st _ _ disp hu]
      have hfun : (fun i => backoff * 2 * 2 ^ i) =
          ((fun i => backoff * 2 ^ i) ∘ Nat.succ) := by
        funext i
        simp only [Function.comp_apply, pow_succ]
        ring
      rw [List.append_assoc, List.append_assoc, List.singleton_append,
        ← List.replicate_succ, List.range_succ_eq_map, List.map_cons,
        List.map_map, List.singleton_append, ← hfun, pow_zero, mul_one]

/-- C4 (confirmed): with `retries = 3` and `initial_backoff = 1` second,
a cycle under sustained transient failure performs exactly 3 fetch
attempts, sleeps 1s after the first failure and 2s after the second
(none after the final attempt), then ends normally with the contract
state unchanged (all contracts still unresolved) and no dispatch
attempted. -/
theorem C4_retry_bound (rf : ℚ) (f : Nat) (ids : List Nat) (L : ℚ)
    (cc : String) (pw : ℚ) (dok : Nat → Nat → Bool) (st : ActiveContracts)
    (hne : get_unprocessed_contracts st ≠ []) :
    ∃ r, process_contracts_with_retries ⟨rf, f, ids, L, 3, 1, cc, pw⟩
        (fun _ => FetchOutcome.failure) dok st = Except.ok r ∧
      r.fetchCalls.length = 3 ∧ r.sleeps = [1, 2] ∧ r.state = st ∧
      r.dispatched = [] := by
  cases hu : get_unprocessed_contracts st with
  | nil => exact absurd hu hne
  | cons ts rest =>
      refine ⟨_, retry_loop_all_fail ⟨rf, f, ids, L, 3, 1, cc, pw⟩ dok ts rest
        2 0 1 st [] [] [] hu, ?_, ?_, rfl, rfl⟩
      · simp
      · norm_num [(by decide : List.range 2 = [0, 1])]

/-- Witness for C4 at a concrete one-contract state. -/
theorem C4_retry_bound_witness :
    ∃ r, process_contracts_with_retries ⟨3600, 15, [1], 100, 3, 1, "DE_LU", 0⟩
        (fun _ => FetchOutcome.failure) (fun _ _ => true) ⟨[720], ∅⟩ =
        Except.ok r ∧
      r.fetchCalls.length = 3 ∧ r.sleeps = [1, 2] ∧
      r.state = (⟨[720], ∅⟩ : ActiveContracts) ∧ r.dispatched = [] :=
  C4_retry_bound 3600 15 [1] 100 "DE_LU" 0 (fun _ _ => true) ⟨[720], ∅⟩
    (by decide)

/-- C6 (confirmed): when the fetch reports `NoData` (returns `None`),
the cycle ends immediately and normally: exactly one fetch call, no
backoff sleep, no dispatch, and the contract state — hence every
resolved flag — unchanged. -/
theorem C6_nodata (cfg : PowerCurtailmentConfig) (dok : Nat → Nat → Bool)
    (st : ActiveContracts) (hr : 0 < cfg.retries)
    (hne : get_unprocessed_contracts st ≠ []) :
    ∃ r, process_contracts_with_retries cfg (fun _ => FetchOutcome.noData)
        dok st = Except.ok r ∧
      r.fetchCalls.length = 1 ∧ r.sleeps = [] ∧ r.dispatched = [] ∧
      r.state = st := by
  cases hu : get_unprocessed_contracts st with
  | nil => exact absurd hu hne
  | cons ts rest =>
      obtain ⟨k, hk⟩ : ∃ k, cfg.retries = k + 1 := ⟨cfg.retries - 1, by omega⟩
      refine ⟨⟨st, [(rest.foldl Nat.min ts, rest.foldl Nat.max ts + 1)],
        [], []⟩, ?_, by simp, rfl, rfl, rfl⟩
      rw [process_contracts_with_retries, hk]
      simp only [retry_loop, hu, List.nil_append]

/-- Witness for C6 at a concrete one-contract state. -/
theorem C6_nodata_witness :
    ∃ r, process_contracts_with_retries ⟨3600, 15, [1], 100, 3, 60, "DE_LU", 0⟩
        (fun _ => FetchOutcome.noData) (fun _ _ => true) ⟨[720], ∅⟩ =
        Except.ok r ∧
      r.fetchCalls.length = 1 ∧ r.sleeps = [] ∧ r.dispatched = [] ∧
      r.state = (⟨[720], ∅⟩ : ActiveContracts) :=
  C6_nodata ⟨3600, 15, [1], 100, 3, 60, "DE_LU", 0⟩ (fun _ _ => true)
    ⟨[720], ∅⟩ (by decide) (by decide)

/-- C7 (confirmed): `_send_dispatch` attempts every configured microgrid
even when an earlier one fails, and its aggregate result is success iff
every per-site call succeeds; in `_process_available_prices` a contract
whose dispatch (price above limit) fails stays unresolved, while a
contract whose dispatch succeeded, or whose price was at or below the
limit, is marked resolved. -/
theorem C7_partial_dispatch (ids : List Nat) (ok : Nat → Bool)
    (cfg : PowerCurtailmentConfig) (dok : Nat → Nat → Bool)
    (prices : Nat → Option ℚ) (l : List Nat) (st : ActiveContracts)
    (ts : Nat) (p : ℚ) :
    (send_dispatch ids ok).attempted = ids ∧
    ((send_dispatch ids ok).success = true ↔ ∀ m ∈ ids, ok m = true) ∧
    (ts ∉ st.resolvedSet → prices ts = some p → cfg.price_limit < p →
      (send_dispatch cfg.microgrid_ids (dok ts)).success = false →
      ts ∉ (process_available_prices cfg dok prices l st).state.resolvedSet) ∧
    (ts ∈ l → prices ts = some p →
      (p ≤ cfg.price_limit ∨
        (send_dispatch cfg.microgrid_ids (dok ts)).success = true) →
      ts ∈ (process_available_prices cfg dok prices l st).state.resolvedSet) := by
  refine ⟨send_dispatch_attempted ids ok, send_dispatch_success_iff ids ok,
    ?_, ?_⟩
  · exact fun h1 h2 h3 h4 =>
      pap_not_resolved_of_fail cfg dok prices l st ts p h1 h2 h3 h4
  · intro h1 h2 h3
    refine pap_resolved_of cfg dok prices l st ts p h1 h2 ?_
    rcases h3 with hle | hs
    · exact Or.inl (not_lt.mpr hle)
    · exact Or.inr hs

/-- Witness for C7 with `microgrid_ids = [1, 2]`, site 1 succeeding and
site 2 failing: both sites attempted, and the contract at 720 (price 150
above limit 100) stays unresolved. -/
theorem C7_partial_dispatch_witness :
    (send_dispatch [1, 2] (fun m => m == 1)).attempted = [1, 2] ∧
    720 ∉ (process_available_prices ⟨3600, 15, [1, 2], 100, 3, 60, "DE_LU", 0⟩
        (fun _ m => m == 1) (fun t => if t = 720 then some 150 else none)
        [720] ⟨[720], ∅⟩).state.resolvedSet :=
  ⟨(C7_partial_dispatch [1, 2] (fun m => m == 1)
      ⟨3600, 15, [1, 2], 100, 3, 60, "DE_LU", 0⟩ (fun _ m => m == 1)
      (fun t => if t = 720 then some 150 else none) [720] ⟨[720], ∅⟩
      720 150).1,
   (C7_partial_dispatch [1, 2] (fun m => m == 1)
      ⟨3600, 15, [1, 2], 100, 3, 60, "DE_LU", 0⟩ (fun _ m => m == 1)
      (fun t => if t = 720 then some 150 else none) [720] ⟨[720], ∅⟩
      720 150).2.2.1 (by decide) rfl (by decide) (by decide)⟩

/-- C8 (confirmed): resolved flags are monotone.  Processing selects only
contracts with `resolved = False`; `_process_available_prices` never
clears a resolved flag; a window refresh leaves the resolved flag of
every contract that stays tracked unchanged; and a scheduling cycle never
dispatches a contract that was already resolved when the cycle started. -/
theorem C8_resolved_monotone (cfg : PowerCurtailmentConfig)
    (fetch : Nat → FetchOutcome) (dok : Nat → Nat → Bool)
    (prices : Nat → Option ℚ) (l : List Nat) (f now ts : Nat)
    (st : ActiveContracts) :
    (ts ∈ get_unprocessed_contracts st → ts ∉ st.resolvedSet) ∧
    (ts ∈ st.resolvedSet →
      ts ∈ (process_available_prices cfg dok prices l st).state.resolvedSet) ∧
    (ts ∈ st.tracked → ts ∈ (update_contracts f now st).state.tracked →
      (ts ∈ (update_contracts f now st).state.resolvedSet ↔
        ts ∈ st.resolvedSet)) ∧
    (∀ r : CycleResult,
      process_contracts_with_retries cfg fetch dok st = Except.ok r →
      ∀ x ∈ r.dispatched, x ∉ st.resolvedSet) := by
  refine ⟨?_, ?_, ?_, ?_⟩
  · intro h
    exact ((mem_get_unprocessed st ts).mp h).2
  · intro h
    exact pap_resolved_mono cfg dok prices l st h
  · intro htr htr'
    have hcur : ts ∈ currentContracts f now :=
      (mem_update_tracked f now ts st).mp htr'
    simp only [update_contracts, Finset.mem_inter]
    constructor
    · rintro ⟨⟨h1, _⟩, _⟩
      exact h1
    · intro h1
      exact ⟨⟨h1, htr⟩, hcur⟩
  · intro r h x hx
    rw [process_contracts_with_retries] at h
    rcases retry_loop_dispatched cfg fetch dok cfg.retries 0
        cfg.initial_backoff st [] [] [] r h x hx with h0 | h0
    · cases h0
    · exact ((mem_get_unprocessed st x).mp h0).2

/-- Witness for C8 at a concrete input: a contract listed by
`_get_unprocessed_contracts` is unresolved. -/
theorem C8_resolved_monotone_witness :
    720 ∉ (⟨[720], ∅⟩ : ActiveContracts).resolvedSet :=
  (C8_resolved_monotone ⟨3600, 15, [1], 100, 3, 60, "DE_LU", 0⟩
    (fun _ => FetchOutcome.noData) (fun _ _ => true) (fun _ => none) []
    15 720 720 ⟨[720], ∅⟩).1 (by decide)

theorem activeContracts_ext (a b : ActiveContracts)
    (h1 : a.keys = b.keys) (h2 : a.resolvedSet = b.resolvedSet) : a = b := by
  cases a
  cases b
  cases h1
  cases h2
  rfl

/-- C9 (confirmed): window refresh is idempotent — for a fixed `now`,
refreshing a second time leaves the tracked contract mapping unchanged
and reports an empty added/removed diff. -/
theorem C9_refresh_idempotent (f now : Nat) (st : ActiveContracts) :
    (update_contracts f now (update_contracts f now st).state).state =
      (update_contracts f now st).state ∧
    (update_contracts f now (update_contracts f now st).state).added = ∅ ∧
    (update_contracts f now (update_contracts f now st).state).removed = ∅ := by
  have htr : ∀ x, x ∈ (update_contracts f now st).state.tracked ↔
      x ∈ currentContracts f now := fun x => mem_update_tracked f now x st
  have hsub1 : ∀ x ∈ (update_contracts f now st).state.keys,
      x ∈ currentContracts f now := by
    intro x hx
    exact (htr x).mp (List.mem_toFinset.mpr hx)
  have hsub2 : ∀ x ∈ currentContractsList f now,
      x ∈ (update_contracts f now st).state.keys := by
    intro x hx
    exact List.mem_toFinset.mp ((htr x).mpr (List.mem_toFinset.mpr hx))
  have hfilter1 : (update_contracts f now st).state.keys.filter
      (fun x => x ∈ currentContracts f now) =
      (update_contracts f now st).state.keys := by
    rw [List.filter_eq_self]
    intro x hx
    exact decide_eq_true (hsub1 x hx)
  have hfilter2 : (currentContractsList f now).filter
      (fun x => x ∉ (update_contracts f now st).state.tracked) = [] := by
    rw [List.filter_eq_nil_iff]
    intro x hx
    have hmem : x ∈ (update_contracts f now st).state.tracked :=
      List.mem_toFinset.mpr (hsub2 x hx)
    simp [hmem]
  have hres : (update_contracts f now st).state.resolvedSet ∩
      (update_contracts f now st).state.tracked ∩ currentContracts f now =
      (update_contracts f now st).state.resolvedSet := by
    have hc : (update_contracts f now st).state.resolvedSet ⊆
        currentContracts f now := by
      intro x hx
      exact Finset.mem_of_mem_inter_right hx
    have ht : (update_contracts f now st).state.resolvedSet ⊆
        (update_contracts f now st).state.tracked := by
      intro x hx
      exact (htr x).mpr (hc hx)
    rw [Finset.inter_eq_left.mpr ht, Finset.inter_eq_left.mpr hc]
  refine ⟨activeContracts_ext _ _ ?_ ?_, ?_, ?_⟩
  · show ((update_contracts f now st).state.keys.filter
        (fun x => x ∈ currentContracts f now)) ++
        ((currentContractsList f now).filter
          (fun x => x ∉ (update_contracts f now st).state.tracked)) =
      (update_contracts f now st).state.keys
    rw [hfilter1, hfilter2, List.append_nil]
  · exact hres
  · show currentContracts f now \ (update_contracts f now st).state.tracked = ∅
    rw [Finset.sdiff_eq_empty_iff_subset]
    intro x hx
    exact (htr x).mpr hx
  · show (update_contracts f now st).state.tracked \ currentContracts f now = ∅
    rw [Finset.sdiff_eq_empty_iff_subset]
    intro x hx
    exact (htr x).mp hx

end PowerCurtailment
